import Mathlib

/-!
Shallow embedding of `src/queries.py` (invitrocompounddatapaper).

The repository retrieves rows from remote SPARQL endpoints by a paginated
while-loop (fixed page size, offset increased by the page size after every
non-empty page, loop ends on the first empty page), aggregates the rows into
per-name structures, and computes tabular statistics over them.

Modelling conventions:
  * A remote endpoint is a function `Nat → List α` from the requested offset
    to the rows served at that offset (the page size is baked into the
    endpoint function, as it is into the SPARQL `LIMIT` clause).
  * The unbounded `while True` loops are embedded with an explicit fuel
    parameter; a run that terminates is independent of any sufficient fuel.
  * Result rows are the extracted binding values: a plain `String` for the
    compound-label query, a `(label, sample-id)` pair for the sample query.
  * Python dicts (string keys, insertion ordered) are embedded as ordered
    association lists `List (String × β)` with Python's assignment semantics
    (`dictInsert`).
-/

/-- One paginated fetch loop, as in `retrieve_compound_labels` (queries.py
lines 83-99) and the inner loop of `retrieve_samples_and_labels_for_compound`
(lines 136-158): request the page at the current offset; if it is empty stop,
otherwise append its rows, advance the offset by `step` and repeat.  Returns
the accumulated rows together with the number of requests issued.  `fuel`
bounds the number of iterations of the python `while True` loop; a
terminating run returns the same value for every sufficient fuel. -/
def fetch_loop {α : Type} (f : Nat → List α) (step : Nat) : Nat → Nat → List α × Nat
  | 0, _ => ([], 0)
  | fuel + 1, offset =>
    let page := f offset
    if page.length = 0 then ([], 1)
    else
      let rest := fetch_loop f step fuel (offset + step)
      (page ++ rest.1, rest.2 + 1)

/-- The mock endpoint of the pagination claims: it holds `rows` in order and
serves `min (P, remaining)` rows at each requested offset, an empty page past
the end. -/
def mockEndpoint {α : Type} (rows : List α) (P : Nat) : Nat → List α :=
  fun offset => (rows.drop offset).take P

/-- ASCII lowercasing of one character, as `str.lower` /
`numpy.char.lower` act on basic latin letters (queries.py line 102). -/
def lowerChar (c : Char) : Char :=
  if 65 ≤ c.toNat ∧ c.toNat ≤ 90 then Char.ofNat (c.toNat + 32) else c

/-- Lowercasing of a string, character by character. -/
def lowerStr (s : String) : String :=
  ⟨s.data.map lowerChar⟩

/-- `numpy.unique` on a list of strings: the distinct values in sorted
order (queries.py line 102). -/
def np_unique (l : List String) : List String :=
  List.insertionSort (· ≤ ·) l.dedup

/-- `retrieve_compound_labels` (queries.py lines 33-104): run the paginated
fetch loop (page size and step 50) against the label endpoint, collecting the
`compound` binding value of every row, then lowercase and deduplicate via
`numpy.unique(numpy.char.lower(numpy.array(names)))`.

When the loop collected no rows at all, `numpy.array([])` is a `float64`
array and `numpy.char.lower` raises `TypeError: string operation on
non-string array`; the `none` branch embeds that exception. -/
def retrieve_compound_labels (endpoint : Nat → List String) (fuel : Nat) :
    Option (List String) :=
  let names := (fetch_loop endpoint 50 fuel 0).1
  if names.length = 0 then none
  else some (np_unique (names.map lowerStr))

/-- Python dict assignment `d[k] = v` on an insertion-ordered dict embedded
as an association list: replace the value in place when the key exists,
append a new entry otherwise. -/
def dictInsert {β : Type} (d : List (String × β)) (k : String) (v : β) :
    List (String × β) :=
  if d.any (fun p => p.1 == k) then
    d.map (fun p => if p.1 = k then (k, v) else p)
  else d ++ [(k, v)]

/-- `retrieve_samples_and_labels_for_compound` (queries.py lines 107-160):
for each candidate name in turn, set `results_dict[compound] = []`, then run
the paginated fetch loop (page size and step 50) against the sample endpoint
and append every `(label, sample)` row pair to that entry.  The endpoint is a
function of the name and the offset; each iteration therefore installs the
loop's accumulated rows under the name. -/
def retrieve_samples_and_labels_for_compound
    (endpoint : String → Nat → List (String × String)) (fuel : Nat)
    (compounds : List String) : List (String × List (String × String)) :=
  compounds.foldl
    (fun d c => dictInsert d c (fetch_loop (endpoint c) 50 fuel 0).1) []

/-- The sample map built by the aggregator: an insertion-ordered dict from
compound name to its list of `(label, sample-id)` row pairs. -/
abbrev SampleMap := List (String × List (String × String))

/-- A table cell in the statistics tables: python rows mix strings and
integer counts. -/
inductive Cell where
  | str : String → Cell
  | nat : Nat → Cell
deriving DecidableEq, Repr

/-- `samples_associated_with_molarity` (queries.py lines 363-377): the body
collects the sample identifier (second element of each pair) of every entry
into a local list `samples`, but the function has no return statement, so
Python returns `None` — embedded as the constant `none`. -/
def samples_associated_with_molarity (samplesandlabels : SampleMap) :
    Option (List String) :=
  let samples := samplesandlabels.foldl
    (fun acc p => p.2.foldl (fun a s => a ++ [s.2]) acc) []
  none

/-- `no_of_samples` (queries.py lines 380-386): start from the fixed header
row and append one `[name, entry count]` row per dict entry, in iteration
order. -/
def no_of_samples (samplesandlabels : SampleMap) : List (List Cell) :=
  samplesandlabels.foldl
    (fun tabledata p => tabledata ++ [[Cell.str p.1, Cell.nat p.2.length]])
    [[Cell.str "Compound name", Cell.str "No of samples"]]

/-- The number of distinct sample identifiers of `samples1` that also occur
in `samples2`, i.e. `len(set(samples1).intersection(samples2))`
(queries.py line 413). -/
def overlapCount (samples1 samples2 : List String) : Nat :=
  (samples1.dedup.filter (fun x => x ∈ samples2)).length

/-- One cell of the overlap table (queries.py lines 408-414): `0` when
either name's entry list is empty, otherwise the size of the intersection of
the sample-id sets, the ids being the second element of each pair. -/
def overlapCell (v1 v2 : List (String × String)) : Nat :=
  if v1.length = 0 ∨ v2.length = 0 then 0
  else overlapCount (v1.map Prod.snd) (v2.map Prod.snd)

/-- `check_duplicity_of_samples` (queries.py lines 397-419): a header row
`"Compound Name"` plus one column label per name, followed by one row per
name carrying the name and its overlap cell against every name, in iteration
order. -/
def check_duplicity_of_samples (samplesandlabels : SampleMap) :
    List (List Cell) :=
  (Cell.str "Compound Name" :: samplesandlabels.map (fun p => Cell.str p.1))
    :: samplesandlabels.map (fun p1 =>
        Cell.str p1.1
          :: samplesandlabels.map (fun p2 => Cell.nat (overlapCell p1.2 p2.2)))

/-!
Delimited-file export (`write2table`, queries.py lines 429-446) and the
standard delimited-text reader.  The file contents are modelled as the
character stream written by `csv.writer` with its defaults: delimiter `,`,
quote character `"`, line terminator `"\\r\\n"`, minimal quoting (a field is
quoted iff it contains the delimiter, the quote character or a line-break
character, with embedded quote characters doubled), and a row consisting of
a single empty field written as `""` so it stays distinguishable from a
blank line.  The reader (`csv.reader`) is modelled as a character-level
state machine; a blank line reads back as an empty row. -/

/-- A field must be quoted iff it contains the delimiter, the quote
character or a character of the line terminator. -/
def needsQuote (f : List Char) : Bool :=
  f.any (fun c => c = ',' ∨ c = '"' ∨ c = '\r' ∨ c = '\n')

/-- Double every embedded quote character. -/
def escapeField (f : List Char) : List Char :=
  f.flatMap (fun c => if c = '"' then ['"', '"'] else [c])

/-- Render one field, quoting it only when needed. -/
def encodeField (f : List Char) : List Char :=
  if needsQuote f then '"' :: (escapeField f ++ ['"']) else f

/-- Join the rendered fields of a row with the delimiter. -/
def encodeFields : List (List Char) → List Char
  | [] => []
  | [f] => encodeField f
  | f :: fs => encodeField f ++ ',' :: encodeFields fs

/-- Render one row; a single empty field is written quoted. -/
def encodeRow (r : List (List Char)) : List Char :=
  if r = [[]] then ['"', '"'] else encodeFields r

/-- Render all rows, each followed by the line terminator. -/
def encodeCsv (rows : List (List (List Char))) : List Char :=
  rows.flatMap (fun r => encodeRow r ++ ['\r', '\n'])

/-- `write2table` (queries.py lines 429-446): prepend the header row to the
data rows when a header is given, and write the result as one delimited
file.  The produced character stream stands for the file contents. -/
def write2table (header : Option (List (List Char)))
    (data : List (List (List Char))) : List Char :=
  let output := (match header with | some h => [h] | none => []) ++ data
  encodeCsv output

/-- States of the delimited-text reader: at the start of a line, at the
start of a further field, inside an unquoted field, inside a quoted field,
just after a closing quote, or just after a carriage return. -/
inductive CsvMode where
  | lineStart
  | fieldStart
  | unquoted
  | quoted
  | afterQuote
  | afterCR
deriving DecidableEq, Repr

/-- The standard delimited-text reader as a state machine over the
character stream, with accumulators for finished rows, the fields of the
current row, and the characters of the current field.  Records end at a
line break (`"\r\n"`, or a lone terminator); a blank line yields an empty
row; a quote character inside a quoted field escapes a following quote. -/
def parseAux : CsvMode → List (List (List Char)) → List (List Char) →
    List Char → List Char → List (List (List Char))
  | .lineStart, rows, _, _, [] => rows
  | .fieldStart, rows, row, _, [] => rows ++ [row ++ [[]]]
  | .unquoted, rows, row, f, [] => rows ++ [row ++ [f]]
  | .quoted, rows, row, f, [] => rows ++ [row ++ [f]]
  | .afterQuote, rows, row, f, [] => rows ++ [row ++ [f]]
  | .afterCR, rows, _, _, [] => rows
  | .lineStart, rows, _, _, c :: cs =>
    if c = '\r' then parseAux .afterCR (rows ++ [[]]) [] [] cs
    else if c = '"' then parseAux .quoted rows [] [] cs
    else if c = ',' then parseAux .fieldStart rows [[]] [] cs
    else parseAux .unquoted rows [] [c] cs
  | .fieldStart, rows, row, _, c :: cs =>
    if c = '\r' then parseAux .afterCR (rows ++ [row ++ [[]]]) [] [] cs
    else if c = '"' then parseAux .quoted rows row [] cs
    else if c = ',' then parseAux .fieldStart rows (row ++ [[]]) [] cs
    else parseAux .unquoted rows row [c] cs
  | .unquoted, rows, row, f, c :: cs =>
    if c = '\r' then parseAux .afterCR (rows ++ [row ++ [f]]) [] [] cs
    else if c = ',' then parseAux .fieldStart rows (row ++ [f]) [] cs
    else parseAux .unquoted rows row (f ++ [c]) cs
  | .quoted, rows, row, f, c :: cs =>
    if c = '"' then parseAux .afterQuote rows row f cs
    else parseAux .quoted rows row (f ++ [c]) cs
  | .afterQuote, rows, row, f, c :: cs =>
    if c = '"' then parseAux .quoted rows row (f ++ ['"']) cs
    else if c = '\r' then parseAux .afterCR (rows ++ [row ++ [f]]) [] [] cs
    else if c = ',' then parseAux .fieldStart rows (row ++ [f]) [] cs
    else parseAux .unquoted rows row (f ++ [c]) cs
  | .afterCR, rows, _, _, c :: cs =>
    if c = '\n' then parseAux .lineStart rows [] [] cs
    else if c = '\r' then parseAux .afterCR (rows ++ [[]]) [] [] cs
    else if c = '"' then parseAux .quoted rows [] [] cs
    else if c = ',' then parseAux .fieldStart rows [[]] [] cs
    else parseAux .unquoted rows [] [c] cs

/-- Read a whole delimited-text stream into its rows of fields. -/
def parseCsv (input : List Char) : List (List (List Char)) :=
  parseAux .lineStart [] [] [] input

/-- Exact behaviour of the fetch loop against the mock endpoint, from an
arbitrary starting offset: it returns the remaining rows in order and issues
`(remaining + P - 1) / P + 1` requests, i.e. one request per non-empty page
plus the final empty page. -/
theorem fetch_loop_mock {α : Type} :
    ∀ (fuel P offset : Nat) (rows : List α), 1 ≤ fuel → 1 ≤ P →
      rows.length + P ≤ fuel * P + offset →
      fetch_loop (mockEndpoint rows P) P fuel offset
        = (rows.drop offset, (rows.length - offset + P - 1) / P + 1) := by
  intro fuel
  induction fuel with
  | zero => intro P offset rows h1 _ _; omega
  | succ n ih =>
    intro P offset rows _ hP hlen
    show (if ((mockEndpoint rows P) offset).length = 0 then (([] : List α), 1)
          else
            let rest := fetch_loop (mockEndpoint rows P) P n (offset + P)
            ((mockEndpoint rows P) offset ++ rest.1, rest.2 + 1))
        = (rows.drop offset, (rows.length - offset + P - 1) / P + 1)
    by_cases hpage : ((mockEndpoint rows P) offset).length = 0
    · rw [if_pos hpage]
      have hlen0 : ((rows.drop offset).take P).length = 0 := hpage
      rw [List.length_take, List.length_drop] at hlen0
      have hro : rows.length ≤ offset := by omega
      have hdrop : rows.drop offset = [] := List.drop_eq_nil_of_le hro
      have hsub : rows.length - offset = 0 := by omega
      rw [hdrop, hsub]
      have : (0 + P - 1) / P = 0 := Nat.div_eq_of_lt (by omega)
      rw [this]
    · rw [if_neg hpage]
      have hlen1 : ((rows.drop offset).take P).length ≠ 0 := hpage
      rw [List.length_take, List.length_drop] at hlen1
      have hlt : offset < rows.length := by omega
      -- the recursive call has enough fuel
      have hx : (n + 1) * P = n * P + P := by ring
      have hn1 : 1 ≤ n := by
        rcases Nat.eq_zero_or_pos n with h0 | h0
        · subst h0
          rw [hx] at hlen
          simp only [Nat.zero_mul, Nat.zero_add] at hlen
          omega
        · exact h0
      have hrec := ih P (offset + P) rows hn1 hP (by omega)
      simp only [hrec]
      rw [Prod.mk.injEq]
      refine ⟨?_, ?_⟩
      · -- the rows: this page followed by the remaining rows is the remainder
        show (rows.drop offset).take P ++ rows.drop (offset + P) = rows.drop offset
        have : rows.drop (offset + P) = (rows.drop offset).drop P := by
          rw [List.drop_drop]
          try ring_nf
        rw [this, List.take_append_drop]
      · -- the request count
        show (rows.length - (offset + P) + P - 1) / P + 1 + 1
            = (rows.length - offset + P - 1) / P + 1
        have hR : 1 ≤ rows.length - offset := by omega
        have e2 : rows.length - offset + P - 1 = (rows.length - offset - 1) + P := by omega
        rw [e2, Nat.add_div_right _ (by omega : 0 < P)]
        rcases Nat.lt_or_ge (rows.length - offset) P with hc | hc
        · have e3 : rows.length - (offset + P) + P - 1 = P - 1 := by omega
          rw [e3, Nat.div_eq_of_lt (by omega), Nat.div_eq_of_lt (by omega : rows.length - offset - 1 < P)]
        · have e3 : rows.length - (offset + P) + P - 1 = rows.length - offset - 1 := by omega
          rw [e3]

/-- C1 (counterexample): the claim as stated is false on the code.  With
page size `P = 2` and a mock endpoint holding `N = 1` row, the loop issues
one request for the (partial, non-empty) first page and one further request
that returns empty, i.e. 2 requests in total, whereas
`ceil((N+1)/P) = ceil(2/2) = 1`. -/
theorem fetch_loop_request_count_counterexample :
    ¬ ((fetch_loop (mockEndpoint (["s1"] : List String) 2) 2 3 0).2
        = (1 + 1 + 2 - 1) / 2) := by
  decide

/-- C1 (amended): for every page size `P ≥ 1` and every mock endpoint holding
`N` rows (serving `min (P, remaining)` rows at each requested offset and an
empty page past the end), the paginated fetch loop returns exactly the `N`
rows in the order the endpoint produced them and issues exactly
`ceil(N/P) + 1 = (N + P - 1) / P + 1` requests — not `ceil((N+1)/P)`, which
undercounts by one whenever `P` does not divide `N` (and `P > 1`). -/
theorem fetch_loop_mock_spec {α : Type} (rows : List α) (P fuel : Nat)
    (hP : 1 ≤ P) (hfuel : rows.length + 1 ≤ fuel) :
    fetch_loop (mockEndpoint rows P) P fuel 0
      = (rows, (rows.length + P - 1) / P + 1) := by
  have h1 : (rows.length + 1) * P ≤ fuel * P := Nat.mul_le_mul_right P hfuel
  have h2 : rows.length ≤ rows.length * P := Nat.le_mul_of_pos_right _ (by omega)
  have h3 : (rows.length + 1) * P = rows.length * P + P := by ring
  have := fetch_loop_mock fuel P 0 rows (by omega) hP (by omega)
  simpa using this

/-- Witness for C1 (amended): 3 rows at page size 2 come back whole, in
order, in ceil(3/2) + 1 = 3 requests. -/
theorem fetch_loop_mock_spec_witness :
    fetch_loop (mockEndpoint (["r1", "r2", "r3"] : List String) 2) 2 4 0
      = (["r1", "r2", "r3"], 3) :=
  fetch_loop_mock_spec ["r1", "r2", "r3"] 2 4 (by decide) (by decide)

/-- C9: for every mock endpoint whose first page (offset 0) is empty, the
paginated fetch loop returns an empty accumulated sequence and issues exactly
one request. -/
theorem fetch_loop_empty_first_page {α : Type} (f : Nat → List α)
    (step fuel : Nat) (h : (f 0).length = 0) :
    fetch_loop f step (fuel + 1) 0 = ([], 1) := by
  simp [fetch_loop, h]

/-- Witness for C9: the everywhere-empty endpoint yields `([], 1)`. -/
theorem fetch_loop_empty_first_page_witness :
    fetch_loop (fun _ => ([] : List String)) 50 1 0 = ([], 1) :=
  fetch_loop_empty_first_page (fun _ => []) 50 0 rfl

/-- C2: on an endpoint that yields no label rows at all, the code does not
return an empty collection: `numpy.char.lower` raises a `TypeError` on the
empty `float64` array produced by `numpy.array([])` (the `none` branch of
the embedding), contradicting the documented contract that an empty result
is a valid outcome. -/
theorem retrieve_compound_labels_empty_raises :
    retrieve_compound_labels (fun _ => []) 1 = none := rfl

/-- `Char.ofNat` evaluates to the given code point below the surrogate
range. -/
theorem toNat_ofNat_valid (n : Nat) (h1 : n < 0xd800) :
    (Char.ofNat n).toNat = n := by
  unfold Char.ofNat
  rw [dif_pos (Or.inl h1)]
  rfl

/-- ASCII lowercasing is idempotent on characters. -/
theorem lowerChar_idem (c : Char) : lowerChar (lowerChar c) = lowerChar c := by
  unfold lowerChar
  by_cases h : 65 ≤ c.toNat ∧ c.toNat ≤ 90
  · rw [if_pos h]
    have hv : (Char.ofNat (c.toNat + 32)).toNat = c.toNat + 32 :=
      toNat_ofNat_valid _ (by omega)
    rw [if_neg (by omega)]
  · rw [if_neg h, if_neg h]

/-- ASCII lowercasing is idempotent on strings. -/
theorem lowerStr_idem (s : String) : lowerStr (lowerStr s) = lowerStr s := by
  unfold lowerStr
  simp only [List.map_map]
  congr 1
  apply List.map_congr_left
  intro c _
  exact lowerChar_idem c

/-- Membership in `np_unique` is membership in the input list. -/
theorem mem_np_unique {x : String} {l : List String} :
    x ∈ np_unique l ↔ x ∈ l := by
  unfold np_unique
  rw [(List.perm_insertionSort (· ≤ ·) l.dedup).mem_iff, List.mem_dedup]

/-- `np_unique` returns a list without duplicates. -/
theorem np_unique_nodup (l : List String) : (np_unique l).Nodup := by
  unfold np_unique
  exact (List.perm_insertionSort (· ≤ ·) l.dedup).nodup_iff.mpr l.nodup_dedup

/-- C4: every collection of compound names the resolver returns is
idempotent under re-lowercasing (each entry is already lowercase) and has no
duplicate entries, including under case-insensitive comparison. -/
theorem retrieve_compound_labels_lower_nodup
    (endpoint : Nat → List String) (fuel : Nat) (res : List String)
    (h : retrieve_compound_labels endpoint fuel = some res) :
    res.map lowerStr = res ∧ res.Nodup ∧
      List.Pairwise (fun a b => lowerStr a ≠ lowerStr b) res := by
  unfold retrieve_compound_labels at h
  by_cases h0 : ((fetch_loop endpoint 50 fuel 0).1).length = 0
  · rw [if_pos h0] at h
    exact absurd h (by simp)
  · rw [if_neg h0] at h
    have hres : res = np_unique (((fetch_loop endpoint 50 fuel 0).1).map lowerStr) :=
      (Option.some.injEq _ _ ▸ h).symm
    have hfix : ∀ x ∈ res, lowerStr x = x := by
      intro x hx
      rw [hres] at hx
      rw [mem_np_unique] at hx
      obtain ⟨y, _, rfl⟩ := List.mem_map.mp hx
      exact lowerStr_idem y
    have hnd : res.Nodup := hres ▸ np_unique_nodup _
    refine ⟨?_, hnd, ?_⟩
    · calc res.map lowerStr = res.map id := List.map_congr_left hfix
        _ = res := List.map_id res
    · refine List.Pairwise.imp_of_mem ?_ hnd
      intro a b ha hb hne
      rw [hfix a ha, hfix b hb]
      exact hne

/-- Witness for C4: a two-page mixed-case endpoint resolves to a single
lowercase name. -/
theorem retrieve_compound_labels_lower_nodup_witness :
    (["abc"] : List String).map lowerStr = ["abc"] ∧
      (["abc"] : List String).Nodup ∧
      List.Pairwise (fun a b => lowerStr a ≠ lowerStr b) (["abc"] : List String) :=
  retrieve_compound_labels_lower_nodup
    (fun o => if o = 0 then ["Abc", "ABC"] else []) 3 ["abc"] (by decide)

/-- Folding `dictInsert` over fresh keys appends the entries in order. -/
theorem foldl_dictInsert_fresh {β : Type} (g : String → β) :
    ∀ (cs : List String) (d : List (String × β)),
      (∀ c ∈ cs, ∀ p ∈ d, p.1 ≠ c) → cs.Nodup →
      cs.foldl (fun d c => dictInsert d c (g c)) d
        = d ++ cs.map (fun c => (c, g c)) := by
  intro cs
  induction cs with
  | nil => intro d _ _; simp
  | cons c cs ih =>
    intro d hfresh hnd
    have hany : d.any (fun p => p.1 == c) = false := by
      rw [List.any_eq_false]
      intro p hp
      simpa using hfresh c (by simp) p hp
    have hstep : dictInsert d c (g c) = d ++ [(c, g c)] := by
      unfold dictInsert
      rw [hany]
      simp
    rw [List.foldl_cons, hstep,
      ih (d ++ [(c, g c)])
        (by
          intro c2 hc2 p hp
          rcases List.mem_append.mp hp with hpd | hpe
          · exact hfresh c2 (by simp [hc2]) p hpd
          · have hpc : p = (c, g c) := by simpa using hpe
            subst hpc
            have : c ∉ cs := (List.nodup_cons.mp hnd).1
            intro hcc
            simp only at hcc
            exact this (hcc ▸ hc2))
        (List.nodup_cons.mp hnd).2]
    simp

/-- C3: for every endpoint, fuel and duplicate-free list of candidate names,
the sample map has exactly one entry per input name, in input order, each
carrying exactly the rows that name's paginated query accumulated; in
particular a name whose query yields zero rows is still present, mapped to
the empty sequence. -/
theorem retrieve_samples_one_entry_per_name
    (endpoint : String → Nat → List (String × String)) (fuel : Nat)
    (compounds : List String) (hnd : compounds.Nodup) :
    retrieve_samples_and_labels_for_compound endpoint fuel compounds
        = compounds.map (fun c => (c, (fetch_loop (endpoint c) 50 fuel 0).1)) ∧
      ∀ c ∈ compounds, (fetch_loop (endpoint c) 50 fuel 0).1 = [] →
        (c, ([] : List (String × String)))
          ∈ retrieve_samples_and_labels_for_compound endpoint fuel compounds := by
  have hmain :
      retrieve_samples_and_labels_for_compound endpoint fuel compounds
        = compounds.map (fun c => (c, (fetch_loop (endpoint c) 50 fuel 0).1)) := by
    unfold retrieve_samples_and_labels_for_compound
    have := foldl_dictInsert_fresh
      (fun c => (fetch_loop (endpoint c) 50 fuel 0).1) compounds []
      (by intro c _ p hp; exact absurd hp (List.not_mem_nil p)) hnd
    simpa using this
  refine ⟨hmain, ?_⟩
  intro c hc hempty
  rw [hmain]
  rw [List.mem_map]
  exact ⟨c, hc, by rw [hempty]⟩

/-- Witness for C3: two names, one of which matches nothing, both occupy an
entry of the sample map, the unmatched one with the empty sequence. -/
theorem retrieve_samples_one_entry_per_name_witness :
    retrieve_samples_and_labels_for_compound
        (fun c o => if c = "b" ∧ o = 0 then [("lab", "s1")] else []) 2
        ["a", "b"]
        = [("a", []), ("b", [("lab", "s1")])] ∧
      ("a", ([] : List (String × String)))
        ∈ retrieve_samples_and_labels_for_compound
            (fun c o => if c = "b" ∧ o = 0 then [("lab", "s1")] else []) 2
            ["a", "b"] := by
  have h := retrieve_samples_one_entry_per_name
    (fun c o => if c = "b" ∧ o = 0 then [("lab", "s1")] else []) 2
    ["a", "b"] (by decide)
  exact ⟨by rw [h.1]; decide, h.2 "a" (by decide) (by decide)⟩

/-- C10: for every input dictionary, `samples_associated_with_molarity`
returns `None`; the locally collected sample list is never observable by a
caller, despite the docstring promising a list of samples. -/
theorem samples_associated_with_molarity_returns_none
    (samplesandlabels : SampleMap) :
    samples_associated_with_molarity samplesandlabels = none := rfl

/-- Appending one mapped row per element under `foldl` is a map. -/
theorem foldl_append_map {β γ : Type} (g : β → γ) :
    ∀ (l : List β) (init : List γ),
      l.foldl (fun acc b => acc ++ [g b]) init = init ++ l.map g := by
  intro l
  induction l with
  | nil => intro init; simp
  | cons b l ih =>
    intro init
    rw [List.foldl_cons, ih (init ++ [g b])]
    simp

/-- C7: for every sample map, `no_of_samples` returns the fixed header row
`["Compound name", "No of samples"]` followed by one row per name in the
map's iteration order, each pairing the name with the exact length of that
name's entry list. -/
theorem no_of_samples_spec (samplesandlabels : SampleMap) :
    no_of_samples samplesandlabels
      = [Cell.str "Compound name", Cell.str "No of samples"]
        :: samplesandlabels.map
            (fun p => [Cell.str p.1, Cell.nat p.2.length]) := by
  unfold no_of_samples
  rw [foldl_append_map]
  rfl

/-- In-bounds `getD` is `getElem`. -/
theorem getD_of_lt {α : Type} (l : List α) (n : Nat) (d : α)
    (h : n < l.length) : l.getD n d = l[n] := by
  rw [List.getD_eq_getElem?_getD, List.getElem?_eq_getElem h]
  rfl

/-- `overlapCount` is the cardinality of the intersection of the two sets of
sample identifiers. -/
theorem overlapCount_card (s1 s2 : List String) :
    overlapCount s1 s2 = (s1.toFinset ∩ s2.toFinset).card := by
  unfold overlapCount
  have hnd : (s1.dedup.filter (fun x => x ∈ s2)).Nodup :=
    (List.nodup_dedup s1).filter _
  have hts : (s1.dedup.filter (fun x => x ∈ s2)).toFinset
      = s1.toFinset ∩ s2.toFinset := by
    ext x
    simp [List.mem_filter, List.mem_dedup]
  rw [← List.toFinset_card_of_nodup hnd, hts]

/-- `overlapCount` is symmetric. -/
theorem overlapCount_comm (s1 s2 : List String) :
    overlapCount s1 s2 = overlapCount s2 s1 := by
  rw [overlapCount_card, overlapCount_card, Finset.inter_comm]

/-- The overlap-table cell is symmetric in its two entry lists. -/
theorem overlapCell_comm (v1 v2 : List (String × String)) :
    overlapCell v1 v2 = overlapCell v2 v1 := by
  unfold overlapCell
  by_cases h : v1.length = 0 ∨ v2.length = 0
  · rw [if_pos h, if_pos (or_comm.mp h)]
  · rw [if_neg h, if_neg (fun hc => h (or_comm.mp hc)), overlapCount_comm]

/-- Any body cell of the overlap table is `overlapCell` of the two entries. -/
theorem check_duplicity_cell (m : SampleMap) (i j : Nat)
    (hi : i < m.length) (hj : j < m.length) :
    ((check_duplicity_of_samples m).getD (i + 1) []).getD (j + 1) (Cell.nat 0)
      = Cell.nat (overlapCell m[i].2 m[j].2) := by
  unfold check_duplicity_of_samples
  rw [List.getD_cons_succ]
  have hrow :
      (List.map (fun p1 =>
          Cell.str p1.1
            :: List.map (fun p2 => Cell.nat (overlapCell p1.2 p2.2)) m) m).getD i []
        = Cell.str m[i].1
            :: List.map (fun p2 => Cell.nat (overlapCell m[i].2 p2.2)) m := by
    have hlen : i < (List.map (fun p1 =>
        Cell.str p1.1
          :: List.map (fun p2 => Cell.nat (overlapCell p1.2 p2.2)) m) m).length := by
      simpa using hi
    rw [getD_of_lt _ _ _ hlen, List.getElem_map]
  rw [hrow, List.getD_cons_succ]
  have hcell :
      (List.map (fun p2 => Cell.nat (overlapCell m[i].2 p2.2)) m).getD j (Cell.nat 0)
        = Cell.nat (overlapCell m[i].2 m[j].2) := by
    have hlen : j < (List.map
        (fun p2 => Cell.nat (overlapCell m[i].2 p2.2)) m).length := by
      simpa using hj
    rw [getD_of_lt _ _ _ hlen, List.getElem_map]
  rw [hcell]

/-- C5: the overlap table produced by `check_duplicity_of_samples` is
symmetric: for all in-range row and column indices `i`, `j`, the cell in row
`i`, column `j` equals the cell in row `j`, column `i` (row and column `0`
hold the name labels; the body cells start at index 1). -/
theorem check_duplicity_symmetric (m : SampleMap) (i j : Nat)
    (hi : i < m.length) (hj : j < m.length) :
    ((check_duplicity_of_samples m).getD (i + 1) []).getD (j + 1) (Cell.nat 0)
      = ((check_duplicity_of_samples m).getD (j + 1) []).getD (i + 1) (Cell.nat 0) := by
  rw [check_duplicity_cell m i j hi hj, check_duplicity_cell m j i hj hi,
    overlapCell_comm]

/-- Witness for C5: two overlapping names give equal mirrored cells. -/
theorem check_duplicity_symmetric_witness :
    (((check_duplicity_of_samples
          [("a", [("l1", "s1"), ("l2", "s2")]), ("b", [("l3", "s1")])]).getD 1 []).getD 2 (Cell.nat 0)
      = ((check_duplicity_of_samples
          [("a", [("l1", "s1"), ("l2", "s2")]), ("b", [("l3", "s1")])]).getD 2 []).getD 1 (Cell.nat 0)) :=
  check_duplicity_symmetric
    [("a", [("l1", "s1"), ("l2", "s2")]), ("b", [("l3", "s1")])]
    0 1 (by decide) (by decide)

/-- The diagonal overlap cell counts the distinct sample identifiers of the
entry. -/
theorem overlapCell_diag (v : List (String × String)) :
    overlapCell v v = (v.map Prod.snd).dedup.length := by
  unfold overlapCell
  by_cases h : v.length = 0
  · rw [if_pos (Or.inl h)]
    have : v = [] := List.length_eq_zero.mp h
    subst this
    rfl
  · rw [if_neg (by tauto)]
    unfold overlapCount
    congr 1
    rw [List.filter_eq_self]
    intro x hx
    simpa using List.mem_dedup.mp hx

/-- The empty-list shortcut returns what the intersection would: zero. -/
theorem overlapCell_empty (v1 v2 : List (String × String))
    (h : v1 = [] ∨ v2 = []) :
    overlapCell v1 v2 = 0 ∧
      overlapCell v1 v2 = overlapCount (v1.map Prod.snd) (v2.map Prod.snd) := by
  have hz : overlapCell v1 v2 = 0 := by
    unfold overlapCell
    rcases h with h | h <;> rw [if_pos (by subst h; simp)]
  refine ⟨hz, ?_⟩
  rw [hz]
  rcases h with h | h <;> subst h
  · rfl
  · unfold overlapCount
    rw [List.filter_eq_nil_iff.mpr (by intro x _; simp)]
    rfl

/-- C6: every diagonal cell of the overlap table equals the number of unique
sample identifiers in that name's list (not its raw entry count), and
whenever either name's list is empty the cell is the explicit `0`, which
equals the size of the set intersection, so the shortcut is equivalent to
computing the intersection. -/
theorem check_duplicity_diag (m : SampleMap) (i : Nat) (hi : i < m.length) :
    ((check_duplicity_of_samples m).getD (i + 1) []).getD (i + 1) (Cell.nat 0)
        = Cell.nat ((m[i].2.map Prod.snd).dedup.length)
      ∧ ∀ v1 v2 : List (String × String), v1 = [] ∨ v2 = [] →
          overlapCell v1 v2 = 0 ∧
            overlapCell v1 v2 = overlapCount (v1.map Prod.snd) (v2.map Prod.snd) := by
  refine ⟨?_, overlapCell_empty⟩
  rw [check_duplicity_cell m i i hi hi, overlapCell_diag]

/-- Witness for C6: a name whose two entries share one sample id has
diagonal cell 1, and the empty-list shortcut agrees with the intersection. -/
theorem check_duplicity_diag_witness :
    (((check_duplicity_of_samples
          [("a", [("l1", "s1"), ("l2", "s1")])]).getD 1 []).getD 1 (Cell.nat 0)
        = Cell.nat 1)
      ∧ overlapCell [] [("l3", "s9")] = 0
      ∧ overlapCell [] [("l3", "s9")]
          = overlapCount (([] : List (String × String)).map Prod.snd)
              ([("l3", "s9")].map Prod.snd) := by
  have h := check_duplicity_diag [("a", [("l1", "s1"), ("l2", "s1")])] 0 (by decide)
  exact ⟨by rw [h.1]; decide, h.2 [] [("l3", "s9")] (Or.inl rfl)⟩

/-- Single step of the reader: carriage return at a line start. -/
theorem step_ls_cr (rows : List (List (List Char))) (row : List (List Char))
    (f cs : List Char) :
    parseAux .lineStart rows row f ('\r' :: cs)
      = parseAux .afterCR (rows ++ [[]]) [] [] cs := by
  simp [parseAux]

/-- Single step of the reader: opening quote at a line start. -/
theorem step_ls_quote (rows : List (List (List Char))) (row : List (List Char))
    (f cs : List Char) :
    parseAux .lineStart rows row f ('"' :: cs)
      = parseAux .quoted rows [] [] cs := by
  simp [parseAux]

/-- Single step of the reader: delimiter at a line start. -/
theorem step_ls_comma (rows : List (List (List Char))) (row : List (List Char))
    (f cs : List Char) :
    parseAux .lineStart rows row f (',' :: cs)
      = parseAux .fieldStart rows [[]] [] cs := by
  simp [parseAux]

/-- Single step of the reader: ordinary character at a line start. -/
theorem step_ls_other (rows : List (List (List Char))) (row : List (List Char))
    (f cs : List Char) (c : Char) (h1 : ¬c = '\r') (h2 : ¬c = '"')
    (h3 : ¬c = ',') :
    parseAux .lineStart rows row f (c :: cs)
      = parseAux .unquoted rows [] [c] cs := by
  simp [parseAux, h1, h2, h3]

/-- Single step of the reader: carriage return at a field start. -/
theorem step_fs_cr (rows : List (List (List Char))) (row : List (List Char))
    (f cs : List Char) :
    parseAux .fieldStart rows row f ('\r' :: cs)
      = parseAux .afterCR (rows ++ [row ++ [[]]]) [] [] cs := by
  simp [parseAux]

/-- Single step of the reader: opening quote at a field start. -/
theorem step_fs_quote (rows : List (List (List Char))) (row : List (List Char))
    (f cs : List Char) :
    parseAux .fieldStart rows row f ('"' :: cs)
      = parseAux .quoted rows row [] cs := by
  simp [parseAux]

/-- Single step of the reader: delimiter at a field start. -/
theorem step_fs_comma (rows : List (List (List Char))) (row : List (List Char))
    (f cs : List Char) :
    parseAux .fieldStart rows row f (',' :: cs)
      = parseAux .fieldStart rows (row ++ [[]]) [] cs := by
  simp [parseAux]

/-- Single step of the reader: ordinary character at a field start. -/
theorem step_fs_other (rows : List (List (List Char))) (row : List (List Char))
    (f cs : List Char) (c : Char) (h1 : ¬c = '\r') (h2 : ¬c = '"')
    (h3 : ¬c = ',') :
    parseAux .fieldStart rows row f (c :: cs)
      = parseAux .unquoted rows row [c] cs := by
  simp [parseAux, h1, h2, h3]

/-- Single step of the reader: carriage return inside an unquoted field. -/
theorem step_uq_cr (rows : List (List (List Char))) (row : List (List Char))
    (f cs : List Char) :
    parseAux .unquoted rows row f ('\r' :: cs)
      = parseAux .afterCR (rows ++ [row ++ [f]]) [] [] cs := by
  simp [parseAux]

/-- Single step of the reader: delimiter inside an unquoted field. -/
theorem step_uq_comma (rows : List (List (List Char))) (row : List (List Char))
    (f cs : List Char) :
    parseAux .unquoted rows row f (',' :: cs)
      = parseAux .fieldStart rows (row ++ [f]) [] cs := by
  simp [parseAux]

/-- Single step of the reader: ordinary character inside an unquoted
field. -/
theorem step_uq_other (rows : List (List (List Char))) (row : List (List Char))
    (f cs : List Char) (c : Char) (h1 : ¬c = '\r') (h2 : ¬c = ',') :
    parseAux .unquoted rows row f (c :: cs)
      = parseAux .unquoted rows row (f ++ [c]) cs := by
  simp [parseAux, h1, h2]

/-- Single step of the reader: quote inside a quoted field. -/
theorem step_q_quote (rows : List (List (List Char))) (row : List (List Char))
    (f cs : List Char) :
    parseAux .quoted rows row f ('"' :: cs)
      = parseAux .afterQuote rows row f cs := by
  simp [parseAux]

/-- Single step of the reader: ordinary character inside a quoted field. -/
theorem step_q_other (rows : List (List (List Char))) (row : List (List Char))
    (f cs : List Char) (c : Char) (h : ¬c = '"') :
    parseAux .quoted rows row f (c :: cs)
      = parseAux .quoted rows row (f ++ [c]) cs := by
  simp [parseAux, h]

/-- Single step of the reader: second quote of an escaped pair. -/
theorem step_aq_quote (rows : List (List (List Char))) (row : List (List Char))
    (f cs : List Char) :
    parseAux .afterQuote rows row f ('"' :: cs)
      = parseAux .quoted rows row (f ++ ['"']) cs := by
  simp [parseAux]

/-- Single step of the reader: carriage return after a closing quote. -/
theorem step_aq_cr (rows : List (List (List Char))) (row : List (List Char))
    (f cs : List Char) :
    parseAux .afterQuote rows row f ('\r' :: cs)
      = parseAux .afterCR (rows ++ [row ++ [f]]) [] [] cs := by
  simp [parseAux]

/-- Single step of the reader: delimiter after a closing quote. -/
theorem step_aq_comma (rows : List (List (List Char))) (row : List (List Char))
    (f cs : List Char) :
    parseAux .afterQuote rows row f (',' :: cs)
      = parseAux .fieldStart rows (row ++ [f]) [] cs := by
  simp [parseAux]

/-- Single step of the reader: line feed completing the line terminator. -/
theorem step_acr_lf (rows : List (List (List Char))) (row : List (List Char))
    (f cs : List Char) :
    parseAux .afterCR rows row f ('\n' :: cs)
      = parseAux .lineStart rows [] [] cs := by
  simp [parseAux]

/-- The reader finishes at a line start with the rows accumulated so far. -/
theorem step_ls_nil (rows : List (List (List Char))) (row : List (List Char))
    (f : List Char) :
    parseAux .lineStart rows row f [] = rows := by
  simp [parseAux]

/-- At a line start on a character other than a carriage return, the reader
behaves as at a field start with an empty current row. -/
theorem parse_lineStart_eq_fieldStart (rows : List (List (List Char)))
    (c : Char) (cs : List Char) (h : ¬c = '\r') :
    parseAux .lineStart rows [] [] (c :: cs)
      = parseAux .fieldStart rows [] [] (c :: cs) := by
  by_cases h2 : c = '"'
  · subst h2
    rw [step_ls_quote, step_fs_quote]
  · by_cases h3 : c = ','
    · subst h3
      rw [step_ls_comma, step_fs_comma]
      simp
    · rw [step_ls_other rows [] [] cs c h h2 h3,
        step_fs_other rows [] [] cs c h h2 h3]

/-- Consuming a run of ordinary characters inside an unquoted field appends
them to the current field. -/
theorem parse_unquoted_run :
    ∀ (g : List Char), (∀ c ∈ g, ¬c = ',' ∧ ¬c = '\r') →
      ∀ (rows : List (List (List Char))) (row : List (List Char))
        (f t : List Char),
        parseAux .unquoted rows row f (g ++ t)
          = parseAux .unquoted rows row (f ++ g) t := by
  intro g
  induction g with
  | nil => intro _ rows row f t; simp
  | cons c g ih =>
    intro h rows row f t
    have hc := h c (by simp)
    rw [List.cons_append,
      step_uq_other rows row f (g ++ t) c hc.2 hc.1,
      ih (fun c2 hc2 => h c2 (by simp [hc2])) rows row (f ++ [c]) t]
    simp

/-- Consuming an escaped field body followed by the closing quote moves the
reader from inside the quotes to just after them, with the unescaped body
appended to the current field. -/
theorem parse_quoted_run :
    ∀ (g : List Char) (rows : List (List (List Char)))
      (row : List (List Char)) (f t : List Char),
      parseAux .quoted rows row f (escapeField g ++ ('"' :: t))
        = parseAux .afterQuote rows row (f ++ g) t := by
  intro g
  induction g with
  | nil =>
    intro rows row f t
    show parseAux .quoted rows row f ('"' :: t) = _
    rw [step_q_quote]
    simp
  | cons c g ih =>
    intro rows row f t
    have hesc : escapeField (c :: g)
        = (if c = '"' then ['"', '"'] else [c]) ++ escapeField g := by
      simp [escapeField]
    by_cases hc : c = '"'
    · subst hc
      rw [hesc, if_pos rfl]
      show parseAux .quoted rows row f
          ('"' :: ('"' :: (escapeField g ++ ('"' :: t)))) = _
      rw [step_q_quote, step_aq_quote, ih rows row (f ++ ['"']) t]
      simp
    · rw [hesc, if_neg hc]
      show parseAux .quoted rows row f (c :: (escapeField g ++ ('"' :: t))) = _
      rw [step_q_other _ _ _ _ c hc, ih rows row (f ++ [c]) t]
      simp

/-- The characters of an unquoted field contain no delimiter, no quote and
no line-break character. -/
theorem needsQuote_false {f : List Char} (hq : needsQuote f = false) :
    ∀ c ∈ f, ¬c = ',' ∧ ¬c = '"' ∧ ¬c = '\r' ∧ ¬c = '\n' := by
  intro c hc
  have := List.any_eq_false.mp hq c hc
  simpa [not_or] using this

/-- Consuming one rendered field followed by a delimiter commits the field
to the current row and returns to the field-start state. -/
theorem parse_field_comma (f : List Char) (rows : List (List (List Char)))
    (row : List (List Char)) (t : List Char) :
    parseAux .fieldStart rows row [] (encodeField f ++ (',' :: t))
      = parseAux .fieldStart rows (row ++ [f]) [] t := by
  by_cases hq : needsQuote f
  · unfold encodeField
    rw [if_pos hq]
    show parseAux .fieldStart rows row []
        ('"' :: ((escapeField f ++ ['"']) ++ (',' :: t))) = _
    rw [List.append_assoc, step_fs_quote]
    show parseAux .quoted rows row [] (escapeField f ++ ('"' :: (',' :: t))) = _
    rw [parse_quoted_run f rows row [] (',' :: t)]
    show parseAux .afterQuote rows row f (',' :: t) = _
    rw [step_aq_comma]
  · have hq2 : needsQuote f = false := by simpa using hq
    unfold encodeField
    rw [if_neg hq]
    cases f with
    | nil =>
      show parseAux .fieldStart rows row [] (',' :: t) = _
      rw [step_fs_comma]
    | cons c g =>
      have hc := needsQuote_false hq2 c (by simp)
      show parseAux .fieldStart rows row [] (c :: (g ++ (',' :: t))) = _
      rw [step_fs_other rows row [] _ c hc.2.2.1 hc.2.1 hc.1,
        parse_unquoted_run g
          (fun c2 hc2 =>
            ⟨(needsQuote_false hq2 c2 (by simp [hc2])).1,
             (needsQuote_false hq2 c2 (by simp [hc2])).2.2.1⟩)
          rows row [c] (',' :: t)]
      show parseAux .unquoted rows row (c :: g) (',' :: t) = _
      rw [step_uq_comma]

/-- Consuming one rendered field followed by the line terminator commits the
field, emits the finished row and returns to the line-start state. -/
theorem parse_field_end (f : List Char) (rows : List (List (List Char)))
    (row : List (List Char)) (t : List Char) :
    parseAux .fieldStart rows row [] (encodeField f ++ ('\r' :: '\n' :: t))
      = parseAux .lineStart (rows ++ [row ++ [f]]) [] [] t := by
  by_cases hq : needsQuote f
  · unfold encodeField
    rw [if_pos hq]
    show parseAux .fieldStart rows row []
        ('"' :: ((escapeField f ++ ['"']) ++ ('\r' :: '\n' :: t))) = _
    rw [List.append_assoc, step_fs_quote]
    show parseAux .quoted rows row []
        (escapeField f ++ ('"' :: ('\r' :: '\n' :: t))) = _
    rw [parse_quoted_run f rows row [] ('\r' :: '\n' :: t)]
    show parseAux .afterQuote rows row f ('\r' :: '\n' :: t) = _
    rw [step_aq_cr, step_acr_lf]
  · have hq2 : needsQuote f = false := by simpa using hq
    unfold encodeField
    rw [if_neg hq]
    cases f with
    | nil =>
      show parseAux .fieldStart rows row [] ('\r' :: '\n' :: t) = _
      rw [step_fs_cr, step_acr_lf]
    | cons c g =>
      have hc := needsQuote_false hq2 c (by simp)
      show parseAux .fieldStart rows row [] (c :: (g ++ ('\r' :: '\n' :: t))) = _
      rw [step_fs_other rows row [] _ c hc.2.2.1 hc.2.1 hc.1,
        parse_unquoted_run g
          (fun c2 hc2 =>
            ⟨(needsQuote_false hq2 c2 (by simp [hc2])).1,
             (needsQuote_false hq2 c2 (by simp [hc2])).2.2.1⟩)
          rows row [c] ('\r' :: '\n' :: t)]
      show parseAux .unquoted rows row (c :: g) ('\r' :: '\n' :: t) = _
      rw [step_uq_cr, step_acr_lf]

/-- Consuming the delimiter-joined fields of a non-empty row followed by the
line terminator emits the whole row. -/
theorem parse_fields_row :
    ∀ (fs : List (List Char)), fs ≠ [] →
      ∀ (rows : List (List (List Char))) (row : List (List Char)) (t : List Char),
        parseAux .fieldStart rows row [] (encodeFields fs ++ ('\r' :: '\n' :: t))
          = parseAux .lineStart (rows ++ [row ++ fs]) [] [] t := by
  intro fs
  induction fs with
  | nil => intro h; exact absurd rfl h
  | cons f fs ih =>
    intro _ rows row t
    cases fs with
    | nil =>
      show parseAux .fieldStart rows row [] (encodeField f ++ ('\r' :: '\n' :: t)) = _
      rw [parse_field_end]
    | cons f2 fs2 =>
      show parseAux .fieldStart rows row []
          ((encodeField f ++ (',' :: encodeFields (f2 :: fs2))) ++ ('\r' :: '\n' :: t)) = _
      rw [List.append_assoc, List.cons_append, parse_field_comma,
        ih (by simp) rows (row ++ [f]) t]
      simp

/-- Consuming one rendered row and its line terminator appends the row to
the finished rows. -/
theorem parse_row (r : List (List Char)) (rows : List (List (List Char)))
    (t : List Char) :
    parseAux .lineStart rows [] [] (encodeRow r ++ ('\r' :: '\n' :: t))
      = parseAux .lineStart (rows ++ [r]) [] [] t := by
  by_cases hr0 : r = []
  · subst hr0
    show parseAux .lineStart rows [] [] ('\r' :: '\n' :: t) = _
    rw [step_ls_cr, step_acr_lf]
  · by_cases hr1 : r = [[]]
    · subst hr1
      show parseAux .lineStart rows [] [] ('"' :: '"' :: '\r' :: '\n' :: t) = _
      rw [step_ls_quote, step_q_quote, step_aq_cr, step_acr_lf]
      simp
    · have henc : encodeRow r = encodeFields r := by
        unfold encodeRow
        rw [if_neg hr1]
      obtain ⟨c, cs, hEq, hc⟩ :
          ∃ c cs, encodeFields r = c :: cs ∧ ¬c = '\r' := by
        cases r with
        | nil => exact absurd rfl hr0
        | cons f fs =>
          cases fs with
          | nil =>
            have hf : f ≠ [] := fun h => hr1 (by rw [h])
            cases hfq : needsQuote f with
            | true =>
              refine ⟨'"', escapeField f ++ ['"'], ?_, by decide⟩
              show encodeField f = _
              unfold encodeField
              rw [hfq, if_pos rfl]
            | false =>
              cases f with
              | nil => exact absurd rfl hf
              | cons c g =>
                refine ⟨c, g, ?_, (needsQuote_false hfq c (by simp)).2.2.1⟩
                show encodeField (c :: g) = _
                unfold encodeField
                rw [hfq]
                simp
          | cons f2 fs2 =>
            cases hfq : needsQuote f with
            | true =>
              refine ⟨'"', (escapeField f ++ ['"']) ++ (',' :: encodeFields (f2 :: fs2)),
                ?_, by decide⟩
              show encodeField f ++ (',' :: encodeFields (f2 :: fs2)) = _
              unfold encodeField
              rw [hfq, if_pos rfl]
              simp
            | false =>
              cases f with
              | nil =>
                refine ⟨',', encodeFields (f2 :: fs2), ?_, by decide⟩
                show encodeField [] ++ (',' :: encodeFields (f2 :: fs2)) = _
                unfold encodeField
                rw [hfq]
                simp [needsQuote]
              | cons c g =>
                refine ⟨c, g ++ (',' :: encodeFields (f2 :: fs2)), ?_,
                  (needsQuote_false hfq c (by simp)).2.2.1⟩
                show encodeField (c :: g) ++ (',' :: encodeFields (f2 :: fs2)) = _
                unfold encodeField
                rw [hfq]
                simp
      rw [henc, hEq, List.cons_append,
        parse_lineStart_eq_fieldStart rows c (cs ++ ('\r' :: '\n' :: t)) hc,
        ← List.cons_append, ← hEq, parse_fields_row r hr0 rows [] t]
      simp

/-- Reading back an encoded sequence of rows recovers exactly those rows,
appended to whatever rows were already finished. -/
theorem parse_encode :
    ∀ (rs : List (List (List Char))) (acc : List (List (List Char))),
      parseAux .lineStart acc [] [] (encodeCsv rs) = acc ++ rs := by
  intro rs
  induction rs with
  | nil =>
    intro acc
    show parseAux .lineStart acc [] [] (encodeCsv []) = _
    have : encodeCsv [] = [] := rfl
    rw [this, step_ls_nil]
    simp
  | cons r rs ih =>
    intro acc
    have henc : encodeCsv (r :: rs)
        = encodeRow r ++ ('\r' :: '\n' :: encodeCsv rs) := by
      simp [encodeCsv]
    rw [henc, parse_row, ih]
    simp

/-- C8: writing any header row and body of rows to a delimited file with
`write2table` and re-reading the file contents with the standard
delimited-text reader yields the original header followed by the original
rows, unchanged. -/
theorem write2table_roundtrip (header : List (List Char))
    (data : List (List (List Char))) :
    parseCsv (write2table (some header) data) = header :: data := by
  show parseAux .lineStart [] [] [] (write2table (some header) data) = _
  unfold write2table
  show parseAux .lineStart [] [] [] (encodeCsv ([header] ++ data)) = _
  rw [parse_encode]
  simp
